import Mathlib

/-!
Verification of the traversal-and-validation engine of `imca_report_table`.

This file gives a shallow embedding, in Lean 4, of the core of the
repository: the data models (`models.py`), the directory-tree traversal
(`traversal.py`) and the JSON (de)serialization layer (`utils.py`).

Modelling conventions:
* The filesystem is modelled as a pure tree `FSNode`; files carry their
  textual content (used by the processing-summary scraper).  The model
  filesystem contains no symlinks, so `Path.resolve()` is the identity on
  the already-canonical component lists manipulated here (apart from
  explicit handling of the `..` components produced by reference
  normalization, see `resolveComps`).
* A Python `pathlib.Path` value is modelled by `PyPath`: an absoluteness
  flag plus the list of its (constructor-normalized) components.  `str()`
  of a path and the `Path()` constructor on a string are modelled by
  `PyPath.toStr` and `pyPathOfString`, both operating on character lists
  exactly as POSIX paths join/split on the slash character.
* Python character classification (`str.isalpha` / `str.isupper`) is
  modelled with Lean's ASCII `Char.isAlpha` / `Char.isUpper`; the repository
  only deals with ASCII directory names.
* The injected progress logger is a callback that is only ever invoked,
  never queried, so it is modelled by a boolean "a logger was supplied"
  flag together with the list of messages that the traversal would hand to
  it: the traversal computes all messages and delivers them when the flag
  is set, which is pointwise equivalent to the source's per-call
  `if logger: logger(message)` gate.
-/

namespace Imca

/-- A model filesystem node: a file with textual content, or a directory
with a list of named children (in directory-enumeration order). -/
inductive FSNode where
  | file (content : String)
  | dir (children : List (String × FSNode))
deriving Repr

/-- Whether a node is a directory (Python `Path.is_dir`). -/
def FSNode.isDir : FSNode → Bool
  | .dir _ => true
  | .file _ => false

/-- Look a path (list of components) up in the filesystem, returning the
node it denotes if it exists.  Models `Path.exists` / `Path.is_dir` /
`Path.is_file` queries on canonical absolute paths. -/
def lookupFS (n : FSNode) : List String → Option FSNode
  | [] => some n
  | name :: rest =>
    match n with
    | .file _ => none
    | .dir cs =>
      match cs.find? (fun c => c.1 == name) with
      | some c => lookupFS c.2 rest
      | none => none

/-- Whether the path denotes an existing directory. -/
def isDirAt (fs : FSNode) (p : List String) : Bool :=
  match lookupFS fs p with
  | some (.dir _) => true
  | _ => false

/-- Split a character list on the slash character; mirrors how POSIX
`str.split("/")` cuts a path string into components. -/
def splitSlash (cs : List Char) : List (List Char) := cs.splitOn '/'

/-- Model of a `pathlib.PurePosixPath` value: an absoluteness flag plus the
normalized component list (the constructor drops empty and `.` components,
which is reflected in `pyPathOfString`). -/
structure PyPath where
  absolute : Bool
  parts : List String
deriving Repr, DecidableEq

/-- Model of `str(path)`: join the components with slashes, with a leading
slash when absolute, and `.` for the empty relative path. -/
def PyPath.toStr (p : PyPath) : String :=
  if p.absolute then String.mk ('/' :: List.intercalate ['/'] (p.parts.map String.toList))
  else if p.parts.isEmpty then "."
  else String.mk (List.intercalate ['/'] (p.parts.map String.toList))

/-- Model of the `Path(string)` constructor: record absoluteness, split on
slashes and drop empty and `.` components (keeping `..`). -/
def pyPathOfString (s : String) : PyPath :=
  ⟨s.toList.head? == some '/',
    ((splitSlash s.toList).filter (fun c => c != [] && c != ['.'])).map (fun l => String.mk l)⟩

/-- The canonical absolute path rooted at the model filesystem root. -/
def abspath (comps : List String) : PyPath := ⟨true, comps⟩

/-- String form of a canonical absolute path (used where the source calls
`str(p.resolve())` on paths below the resolved trip root). -/
def absStr (comps : List String) : String := (abspath comps).toStr

/-- Collapse `..` components (`Path.resolve` on an absolute symlink-free
path); a `..` above the root stays at the root, as in POSIX. -/
def resolveComps (l : List String) : List String :=
  l.foldl (fun acc c => if c == ".." then acc.dropLast else acc ++ [c]) []

/-- `_iter_dirs` of `traversal.py`: the names of the child directories of
the directory at `p`, sorted alphabetically. -/
def iter_dirs (fs : FSNode) (p : List String) : List String :=
  match lookupFS fs p with
  | some (.dir cs) => ((cs.filter (fun c => c.2.isDir)).map (fun c => c.1)).insertionSort (· ≤ ·)
  | _ => []

/-- Helper for `globMatch`; every step strictly shrinks the combined
length of pattern and name, so the fuel (initialised to that length) never
runs out and only discharges termination structurally. -/
def globMatchAux : Nat → List Char → List Char → Bool
  | 0, ps, ns => ps.isEmpty && ns.isEmpty
  | _ + 1, [], ns => ns.isEmpty
  | fuel + 1, '*' :: ps, ns =>
    globMatchAux fuel ps ns ||
      (match ns with
       | [] => false
       | _ :: ns2 => globMatchAux fuel ('*' :: ps) ns2)
  | _ + 1, _ :: _, [] => false
  | fuel + 1, p :: ps, n :: ns => p == n && globMatchAux fuel ps ns

/-- Shell-glob matching with the `*` wildcard, as `fnmatch` applies a
single-component pattern to a file name (case-sensitive on POSIX). -/
def globMatch (ps ns : List Char) : Bool := globMatchAux (ps.length + ns.length) ps ns

mutual
/-- All directories at or below a node, with their (absolute) paths and
child lists, in the depth-first pre-order in which `pathlib`'s recursive
`**` selector visits them. -/
def dirsPreorder (base : List String) : FSNode → List (List String × List (String × FSNode))
  | .file _ => []
  | .dir cs => (base, cs) :: dirsPreorderChildren base cs

/-- Helper for `dirsPreorder` over a child list. -/
def dirsPreorderChildren (base : List String) :
    List (String × FSNode) → List (List String × List (String × FSNode))
  | [] => []
  | c :: rest => dirsPreorder (base ++ [c.1]) c.2 ++ dirsPreorderChildren base rest
end

/-- Model of `path.rglob(pattern)` for a single-component pattern: every
entry at any depth below `base` whose name matches the pattern, paired with
its node, in the order `pathlib` produces (each visited directory's matching
children in turn).  An absent base yields nothing. -/
def rglobEntries (fs : FSNode) (base : List String) (pattern : String) :
    List (List String × FSNode) :=
  match lookupFS fs base with
  | some n =>
    (dirsPreorder base n).flatMap fun d =>
      (d.2.filter (fun c => globMatch pattern.toList c.1.toList)).map fun c =>
        (d.1 ++ [c.1], c.2)
  | none => []

/-- Model of `PurePath.suffix`: the substring of the name from its last dot,
empty when the dot is leading, trailing or absent. -/
def py_suffix (name : String) : String :=
  let cs := name.toList
  match ((List.range cs.length).filter (fun i => cs.getD i ' ' = '.')).getLast? with
  | none => ""
  | some i => if 0 < i ∧ i < cs.length - 1 then String.mk (cs.drop i) else ""

/-- `IMAGE_EXTENSIONS` of `traversal.py`. -/
def IMAGE_EXTENSIONS : List String := [".jpg", ".jpeg", ".png", ".tif", ".tiff", ".bmp"]

/-- `CSV_EXTENSIONS` of `traversal.py`. -/
def CSV_EXTENSIONS : List String := [".csv"]

/-- A metadata value as stored by the extractors: a path string or a list
of path strings. -/
inductive MetaVal where
  | str (s : String)
  | list (l : List String)
deriving Repr, DecidableEq

/-- A metadata mapping, modelled as the insertion-ordered key/value list of
the Python dict. -/
abbrev Metadata := List (String × MetaVal)

/-- The name of the last path component (`Path.name`, empty at the root). -/
def lastName (p : List String) : String := p.getLastD ""

/-- `_collect_camera_metadata` of `traversal.py`: walk every file below the
camera directory, classify by lowercased suffix into images and CSV files,
and return both lists of absolute path strings, each sorted. -/
def collect_camera_metadata (fs : FSNode) (camera_dir : List String) : Metadata :=
  let files := (rglobEntries fs camera_dir "*").filter (fun e => !e.2.isDir)
  let image_files :=
    (files.filter (fun e => IMAGE_EXTENSIONS.contains (py_suffix (lastName e.1)).toLower)).map
      (fun e => absStr e.1)
  let csv_files :=
    (files.filter (fun e => CSV_EXTENSIONS.contains (py_suffix (lastName e.1)).toLower)).map
      (fun e => absStr e.1)
  [("image_files", .list (image_files.insertionSort (· ≤ ·))),
   ("csv_files", .list (csv_files.insertionSort (· ≤ ·)))]

/-- Python `str.isalpha`: nonempty and all characters alphabetic. -/
def py_isalpha (s : String) : Bool := !s.toList.isEmpty && s.toList.all Char.isAlpha

/-- Python `str.isupper`: at least one cased character and no cased
character lowercase (cased = alphabetic in the ASCII model). -/
def py_isupper (s : String) : Bool :=
  s.toList.any Char.isAlpha && s.toList.all (fun c => !c.isAlpha || c.isUpper)

/-- The lettered-collection classifier used by `build_hierarchy`
(`len(name) == 1 and name.isalpha() and name.isupper()`). -/
def is_lettered_collection (s : String) : Bool :=
  s.length == 1 && py_isalpha s && py_isupper s

/-- Whether `needle` occurs as a contiguous sublist of `hay`. -/
def listContainsSub (needle : List Char) : List Char → Bool
  | [] => needle.isEmpty
  | c :: rest => needle.isPrefixOf (c :: rest) || listContainsSub needle rest

/-- Whether a (lowercased, quote-free) character list contains the
spots-per-image marker of `_SUMMARY_IMG_PATTERN`: an occurrence of
`spot.xds` followed, at or after its end, by `spotsperimage`. -/
def hasSpotMarker : List Char → Bool
  | [] => false
  | c :: rest =>
    ("spot.xds".toList.isPrefixOf (c :: rest) &&
      listContainsSub "spotsperimage".toList ((c :: rest).drop 8))
    || hasSpotMarker rest

/-- The fitness-batch marker of `_SUMMARY_IMG_PATTERN`, lowercased. -/
def fitnessMarker : List Char := "integrate_select2.mrfana.fitness_batch_select2".toList

/-- One attempted match of `_SUMMARY_IMG_PATTERN` at the start of the given
character list: `src=` (case-insensitive) followed by a quote, then the
maximal quote-free run as the captured group, then a closing quote; the
group must contain one of the two filename markers (case-insensitively).
Returns the captured group and the characters after the match. -/
def matchSummaryAt (cs : List Char) : Option (String × List Char) :=
  match cs with
  | c1 :: c2 :: c3 :: c4 :: q :: rest =>
    if c1.toLower = 's' ∧ c2.toLower = 'r' ∧ c3.toLower = 'c' ∧ c4 = '=' ∧
        (q = '"' ∨ q = '\'') then
      let grp := rest.takeWhile (fun ch => ch ≠ '"' ∧ ch ≠ '\'')
      match rest.drop grp.length with
      | [] => none
      | _ :: after =>
        let g := grp.map Char.toLower
        if hasSpotMarker g || listContainsSub fitnessMarker g then
          some (String.mk grp, after)
        else none
    else none
  | _ => none

/-- Helper driving `matchSummaryAt` over the text left to right,
non-overlapping, as `re.finditer` does; the fuel (initially the text
length, which each step strictly consumes) only discharges termination. -/
def scanSummaryAux : Nat → List Char → List String
  | 0, _ => []
  | _ + 1, [] => []
  | fuel + 1, c :: rest =>
    match matchSummaryAt (c :: rest) with
    | some (grp, after) => grp :: scanSummaryAux fuel after
    | none => scanSummaryAux fuel rest

/-- All captured `src` references of `_SUMMARY_IMG_PATTERN` in the summary
document text, in order of occurrence. -/
def summaryImgMatches (content : String) : List String :=
  scanSummaryAux content.length content.toList

/-- `_normalize_summary_path` of `traversal.py`: strip query string,
fragment and `file://` scheme from the raw reference, normalize separators,
then try the reference absolutely, else relative to the summary document's
directory and as a bare filename under the processing directory, returning
the first resolved candidate that exists. -/
def normalize_summary_path (fs : FSNode) (raw_ref : String)
    (processing_dir summary_parent : List String) : Option (List String) :=
  let ref0 := String.mk (raw_ref.toList.takeWhile (fun c => c ≠ '?'))
  let ref1 := String.mk (ref0.toList.takeWhile (fun c => c ≠ '#'))
  let ref2 := if ref1.startsWith "file://" then ref1.drop 7 else ref1
  let ref3 := String.mk (ref2.toList.map (fun c => if c = '\\' then '/' else c))
  let cand := pyPathOfString ref3
  let candidates : List (List String) :=
    if cand.absolute then [cand.parts]
    else
      [summary_parent ++ cand.parts,
       processing_dir ++ (if lastName cand.parts = "" then [] else [lastName cand.parts])]
  (candidates.map resolveComps).find? (fun p => (lookupFS fs p).isSome)

/-- The scraping loop of `_collect_processing_metadata`: normalize each
captured reference and keep those that exist, deduplicated by resolved
path, preserving first-seen order. -/
def scrapeImages (fs : FSNode) (processing_dir summary_path : List String)
    (content : String) : List (List String) :=
  (summaryImgMatches content).foldl
    (fun acc ref =>
      match normalize_summary_path fs ref processing_dir summary_path.dropLast with
      | some img => if acc.contains img then acc else acc ++ [img]
      | none => acc)
    []

/-- The fallback branch of `_collect_processing_metadata` for one glob
pattern: all matching entries below the processing directory sorted by
path string, first one that is a file. -/
def fallbackFirstFile (fs : FSNode) (processing_dir : List String) (pattern : String) :
    Option (List String) :=
  let sortedEntries :=
    (rglobEntries fs processing_dir pattern).insertionSort
      (fun a b => absStr a.1 ≤ absStr b.1)
  (sortedEntries.find? (fun e => !e.2.isDir)).map (fun e => e.1)

/-- The fallback loop of `_collect_processing_metadata`: try the
spots-per-image glob, then the literal fitness-batch filename, stopping as
soon as any image has been found. -/
def fallbackImages (fs : FSNode) (processing_dir : List String)
    (images0 : List (List String)) : List (List String) :=
  ["SPOT.XDS*SpotsPerImage*.png",
   "INTEGRATE_select2.mrfana.fitness_batch_select2.png"].foldl
    (fun imgs pat =>
      if imgs.isEmpty then
        match fallbackFirstFile fs processing_dir pat with
        | some f => imgs ++ [f]
        | none => imgs
      else imgs)
    images0

/-- The ordered summary-document candidates of
`_collect_processing_metadata`: the two fixed locations, then every
`00_summary.html` found recursively (when the processing directory
exists). -/
def summaryCandidates (fs : FSNode) (processing_dir : List String) : List (List String) :=
  [processing_dir ++ ["00_summary.html"], processing_dir ++ ["00_summary", "00_summary.html"]]
    ++ (if (lookupFS fs processing_dir).isSome then
          (rglobEntries fs processing_dir "00_summary.html").map (fun e => e.1)
        else [])

/-- Reading a file's text; a directory or missing path yields `none`
(the `OSError` branch of the source). -/
def readFileAt (fs : FSNode) (p : List String) : Option String :=
  match lookupFS fs p with
  | some (.file content) => some content
  | _ => none

/-- `_collect_processing_metadata` of `traversal.py`: locate the summary
document, scrape its embedded image references, fall back to a recursive
glob when scraping found nothing, and return the metadata mapping (empty
when there is no summary document, it is unreadable, or no image was
found). -/
def collect_processing_metadata (fs : FSNode) (processing_dir : List String) : Metadata :=
  match (summaryCandidates fs processing_dir).find? (fun p => (lookupFS fs p).isSome) with
  | none => []
  | some summary_path =>
    match readFileAt fs summary_path with
    | none => []
    | some content =>
      let scraped := scrapeImages fs processing_dir summary_path content
      let images := if scraped.isEmpty then fallbackImages fs processing_dir scraped else scraped
      match images with
      | [] => []
      | first :: _ =>
        [("summary_source", .str (absStr summary_path)),
         ("summary_images", .list (images.map absStr)),
         ("summary_image", .str (absStr first))]

/-- `ExpectedDirectoryStatus` of `models.py`. -/
structure ExpectedDirectoryStatus where
  name : String
  present : Bool
  path : Option PyPath := none
  metadata : Metadata := []
deriving Repr, DecidableEq

/-- `CollectionStatus` of `models.py`. -/
structure CollectionStatus where
  name : String
  path : PyPath
  expected : List ExpectedDirectoryStatus := []
  extras : List String := []
deriving Repr, DecidableEq

/-- The `missing_expected` property of `CollectionStatus`. -/
def CollectionStatus.missing_expected (c : CollectionStatus) : Bool :=
  c.expected.any (fun entry => !entry.present)

/-- `PinStatus` of `models.py`. -/
structure PinStatus where
  name : String
  path : PyPath
  collections : List CollectionStatus := []
  missing_collections : Bool := false
deriving Repr, DecidableEq

/-- `PuckStatus` of `models.py`. -/
structure PuckStatus where
  name : String
  path : PyPath
  pins : List PinStatus := []
deriving Repr, DecidableEq

/-- `SiteStatus` of `models.py`. -/
structure SiteStatus where
  name : String
  path : PyPath
  pucks : List PuckStatus := []
deriving Repr, DecidableEq

/-- `TripHierarchy` of `models.py`. -/
structure TripHierarchy where
  name : String
  path : PyPath
  sites : List SiteStatus := []
deriving Repr, DecidableEq

/-- The `iter_pins` traversal of `TripHierarchy`. -/
def TripHierarchy.iter_pins (t : TripHierarchy) : List PinStatus :=
  (t.sites.flatMap (fun s => s.pucks)).flatMap (fun p => p.pins)

/-- All collections of the trip, in `iter_collections` order. -/
def TripHierarchy.iter_collections (t : TripHierarchy) : List CollectionStatus :=
  t.iter_pins.flatMap (fun p => p.collections)

/-- `HierarchyResult` of `models.py`. -/
structure HierarchyResult where
  trip : TripHierarchy
  all_expected_present : Bool
deriving Repr, DecidableEq

/-- `DEFAULT_EXPECTED_COLLECTION_DIRS` of `traversal.py`. -/
def DEFAULT_EXPECTED_COLLECTION_DIRS : List String :=
  ["camera", "diff-center", "images", "processing"]

/-- The `expected_collection_dirs or DEFAULT_EXPECTED_COLLECTION_DIRS`
defaulting of `build_hierarchy` (Python `or`: `None` and the empty sequence
both fall back to the default). -/
def expandExpected : Option (List String) → List String
  | none => DEFAULT_EXPECTED_COLLECTION_DIRS
  | some l => if l.isEmpty then DEFAULT_EXPECTED_COLLECTION_DIRS else l

/-- The traversal errors raised by `build_hierarchy` on an invalid root. -/
inductive BuildError where
  | fileNotFound (path : String)
  | notADirectory (path : String)
deriving Repr, DecidableEq

/-- The per-expected-name body of the collection loop of `build_hierarchy`:
presence check, metadata extraction for `camera` and `processing`, and the
assembled `ExpectedDirectoryStatus`. -/
def mkExpectedStatus (fs : FSNode) (collection_dir : List String) (expectedName : String) :
    ExpectedDirectoryStatus :=
  let expected_path := collection_dir ++ [expectedName]
  let present := isDirAt fs expected_path
  let metadata : Metadata :=
    if present && expectedName == "camera" then collect_camera_metadata fs expected_path
    else if present && expectedName == "processing" then collect_processing_metadata fs expected_path
    else []
  { name := expectedName
    present := present
    path := if present then some (abspath expected_path) else none
    metadata := metadata }

/-- The per-collection body of `build_hierarchy`: build one
`ExpectedDirectoryStatus` per configured name in order, compute the sorted
extras, and report whether every expected directory is present, together
with the progress messages emitted for this collection. -/
def process_collection (fs : FSNode) (expected_dirs : List String)
    (collection_dir : List String) (collName : String) :
    CollectionStatus × Bool × List String :=
  let present_dirs := iter_dirs fs collection_dir
  let expected_status := expected_dirs.map (mkExpectedStatus fs collection_dir)
  let anyMissing := expected_status.any (fun s => !s.present)
  let extras :=
    ((present_dirs.dedup).filter (fun n => !expected_dirs.contains n)).insertionSort (· ≤ ·)
  let c : CollectionStatus :=
    { name := collName, path := abspath collection_dir
      expected := expected_status, extras := extras }
  (c, !anyMissing,
    ["    Collection " ++ collName ++ ": analysing expected folders"]
      ++ (if anyMissing then
            ["     ⚠️  Missing expected directories: " ++
              String.intercalate ", "
                ((expected_status.filter (fun s => !s.present)).map (fun s => s.name))]
          else [])
      ++ (if extras.isEmpty then []
          else ["     ℹ️  Extra directories detected: " ++ String.intercalate ", " extras]))

/-- The per-pin body of `build_hierarchy`: filter the pin's child
directories to lettered collections; when none qualify mark
`missing_collections` and clear the validity flag, otherwise process each
collection in sorted order. -/
def process_pin (fs : FSNode) (expected_dirs : List String)
    (pin_dir : List String) (pinName : String) :
    PinStatus × Bool × List String :=
  let collNames := (iter_dirs fs pin_dir).filter is_lettered_collection
  if collNames.isEmpty then
    ({ name := pinName, path := abspath pin_dir, collections := [], missing_collections := true },
     false,
     ["   Inspecting pin: " ++ pinName,
      "    ⚠️  No collection directory found under pin " ++ pinName])
  else
    let results := collNames.map (fun n => process_collection fs expected_dirs (pin_dir ++ [n]) n)
    ({ name := pinName, path := abspath pin_dir
       collections := results.map (fun r => r.1), missing_collections := false },
     results.all (fun r => r.2.1),
     ("   Inspecting pin: " ++ pinName) :: results.flatMap (fun r => r.2.2))

/-- `process_puck` of `build_hierarchy`: process each child directory of
the puck as a pin, in sorted order. -/
def process_puck (fs : FSNode) (expected_dirs : List String)
    (puck_dir : List String) (puckName : String) :
    PuckStatus × Bool × List String :=
  let results := (iter_dirs fs puck_dir).map
    (fun n => process_pin fs expected_dirs (puck_dir ++ [n]) n)
  ({ name := puckName, path := abspath puck_dir, pins := results.map (fun r => r.1) },
   results.all (fun r => r.2.1),
   ("  Processing puck: " ++ puckName) :: results.flatMap (fun r => r.2.2))

/-- The per-site loop of `build_hierarchy` in the with-sites grouping mode. -/
def process_site (fs : FSNode) (expected_dirs : List String)
    (site_dir : List String) (siteName : String) :
    SiteStatus × Bool × List String :=
  let results := (iter_dirs fs site_dir).map
    (fun n => process_puck fs expected_dirs (site_dir ++ [n]) n)
  ({ name := siteName, path := abspath site_dir, pucks := results.map (fun r => r.1) },
   results.all (fun r => r.2.1),
   (" Found site: " ++ siteName) :: results.flatMap (fun r => r.2.2))

/-- `build_hierarchy` of `traversal.py`.  `root` is the resolved root path;
`expected` the optional expected-name list; `haveLogger` records whether a
progress sink was injected (the returned message list is what that sink
receives); `no_site_level` selects the flat grouping mode.  Fails before
any traversal when the root is missing or not a directory. -/
def build_hierarchy (fs : FSNode) (root : List String)
    (expected : Option (List String)) (haveLogger : Bool) (no_site_level : Bool) :
    Except BuildError (HierarchyResult × List String) :=
  match lookupFS fs root with
  | none => .error (.fileNotFound (absStr root))
  | some (.file _) => .error (.notADirectory (absStr root))
  | some (.dir _) =>
    let expected_dirs := expandExpected expected
    let scanMsg := "Scanning trip directory: " ++ absStr root
    let tripName := lastName root
    if no_site_level then
      let results := (iter_dirs fs root).map
        (fun n => process_puck fs expected_dirs (root ++ [n]) n)
      let site : SiteStatus :=
        { name := "root", path := abspath root, pucks := results.map (fun r => r.1) }
      let trip : TripHierarchy := { name := tripName, path := abspath root, sites := [site] }
      let msgs := scanMsg :: "No site level detected; grouping pucks directly under trip."
        :: results.flatMap (fun r => r.2.2)
      .ok ({ trip := trip, all_expected_present := results.all (fun r => r.2.1) },
           if haveLogger then msgs else [])
    else
      let results := (iter_dirs fs root).map
        (fun n => process_site fs expected_dirs (root ++ [n]) n)
      let trip : TripHierarchy :=
        { name := tripName, path := abspath root, sites := results.map (fun r => r.1) }
      let msgs := scanMsg :: results.flatMap (fun r => r.2.2)
      .ok ({ trip := trip, all_expected_present := results.all (fun r => r.2.1) },
           if haveLogger then msgs else [])

/-- The `HierarchyResult` a `build_hierarchy` call produces, with the
progress messages dropped (`none` when the call fails). -/
def build_result (fs : FSNode) (root : List String)
    (expected : Option (List String)) (haveLogger : Bool) (no_site_level : Bool) :
    Option HierarchyResult :=
  (build_hierarchy fs root expected haveLogger no_site_level).toOption.map (fun r => r.1)

/-- A JSON-serialisable value, the target of `_serialise` in `utils.py`
(objects keep insertion order like Python dicts). -/
inductive JVal where
  | null
  | bool (b : Bool)
  | str (s : String)
  | arr (l : List JVal)
  | obj (l : List (String × JVal))
deriving Repr

/-- `_serialise` on a metadata value: strings stay strings, path-string
lists become JSON arrays. -/
def metaValToJ : MetaVal → JVal
  | .str s => .str s
  | .list l => .arr (l.map .str)

/-- `_serialise` on a metadata mapping. -/
def metadataToJ (m : Metadata) : JVal :=
  .obj (m.map (fun kv => (kv.1, metaValToJ kv.2)))

/-- `asdict` + `_serialise` on an `ExpectedDirectoryStatus` (fields in
dataclass order; `Path` fields become strings, `None` stays null). -/
def expectedToJ (e : ExpectedDirectoryStatus) : JVal :=
  .obj [("name", .str e.name), ("present", .bool e.present),
        ("path", match e.path with | some p => .str p.toStr | none => .null),
        ("metadata", metadataToJ e.metadata)]

/-- `asdict` + `_serialise` on a `CollectionStatus`. -/
def collectionToJ (c : CollectionStatus) : JVal :=
  .obj [("name", .str c.name), ("path", .str c.path.toStr),
        ("expected", .arr (c.expected.map expectedToJ)),
        ("extras", .arr (c.extras.map .str))]

/-- `asdict` + `_serialise` on a `PinStatus`. -/
def pinToJ (p : PinStatus) : JVal :=
  .obj [("name", .str p.name), ("path", .str p.path.toStr),
        ("collections", .arr (p.collections.map collectionToJ)),
        ("missing_collections", .bool p.missing_collections)]

/-- `asdict` + `_serialise` on a `PuckStatus`. -/
def puckToJ (p : PuckStatus) : JVal :=
  .obj [("name", .str p.name), ("path", .str p.path.toStr),
        ("pins", .arr (p.pins.map pinToJ))]

/-- `asdict` + `_serialise` on a `SiteStatus`. -/
def siteToJ (s : SiteStatus) : JVal :=
  .obj [("name", .str s.name), ("path", .str s.path.toStr),
        ("pucks", .arr (s.pucks.map puckToJ))]

/-- `asdict` + `_serialise` on a `TripHierarchy`. -/
def tripToJ (t : TripHierarchy) : JVal :=
  .obj [("name", .str t.name), ("path", .str t.path.toStr),
        ("sites", .arr (t.sites.map siteToJ))]

/-- `hierarchy_to_dict` of `utils.py`: the JSON-serialisable form of a
`HierarchyResult`. -/
def hierarchy_to_dict (r : HierarchyResult) : JVal :=
  .obj [("trip", tripToJ r.trip), ("all_expected_present", .bool r.all_expected_present)]

/-- Deserialization failures: Python's `KeyError` on a missing required
key, or a type mismatch (the model restricts payloads to the well-typed
shapes the serializer produces; Python would store an ill-typed value
as-is). -/
inductive DeserializeError where
  | keyError (key : String)
  | typeError (what : String)
deriving Repr, DecidableEq

/-- Dictionary lookup (`data.get(key)`). -/
def jLookup (o : List (String × JVal)) (k : String) : Option JVal :=
  (o.find? (fun kv => kv.1 == k)).map (fun kv => kv.2)

/-- Subscript access (`data[key]`), raising `KeyError` when absent. -/
def jRequire (o : List (String × JVal)) (k : String) : Except DeserializeError JVal :=
  match jLookup o k with
  | some v => .ok v
  | none => .error (.keyError k)

/-- Expect a JSON object. -/
def asObj : JVal → Except DeserializeError (List (String × JVal))
  | .obj o => .ok o
  | _ => .error (.typeError "object")

/-- Expect a JSON string. -/
def asStr : JVal → Except DeserializeError String
  | .str s => .ok s
  | _ => .error (.typeError "string")

/-- Expect a JSON boolean. -/
def asBool : JVal → Except DeserializeError Bool
  | .bool b => .ok b
  | _ => .error (.typeError "bool")

/-- `data.get(key, False)` for a boolean field. -/
def getBoolD (o : List (String × JVal)) (k : String) : Except DeserializeError Bool :=
  match jLookup o k with
  | none => .ok false
  | some v => asBool v

/-- `data.get(key, [])` for a list field, delivering the raw elements. -/
def getArrD (o : List (String × JVal)) (k : String) :
    Except DeserializeError (List JVal) :=
  match jLookup o k with
  | none => .ok []
  | some (.arr l) => .ok l
  | some _ => .error (.typeError "array")

/-- Decode a list element-by-element, preserving order (the `for` loops of
`hierarchy_from_dict`). -/
def decodeList (f : JVal → Except DeserializeError α) :
    List JVal → Except DeserializeError (List α)
  | [] => .ok []
  | x :: xs => do
    let a ← f x
    let rest ← decodeList f xs
    .ok (a :: rest)

/-- Decode one metadata value. -/
def decodeMetaVal : JVal → Except DeserializeError MetaVal
  | .str s => .ok (.str s)
  | .arr l => do
    let strs ← decodeList asStr l
    .ok (.list strs)
  | _ => .error (.typeError "metadata value")

/-- `data.get("metadata", {})`. -/
def getMetadataD (o : List (String × JVal)) : Except DeserializeError Metadata :=
  match jLookup o "metadata" with
  | none => .ok []
  | some (.obj m) =>
    decodeList (fun kv => decodeMetaVal kv) (m.map (fun kv => kv.2)) |>.map
      (fun vals => (m.map (fun kv => kv.1)).zip vals)
  | some _ => .error (.typeError "metadata")

/-- `_expected_from_dict` of `utils.py`: required `name`; `present`
defaults to false; a falsy `path` (absent, null or the empty string)
becomes `None`; `metadata` defaults to the empty mapping. -/
def expected_from_dict (data : JVal) : Except DeserializeError ExpectedDirectoryStatus := do
  let o ← asObj data
  let name ← asStr (← jRequire o "name")
  let present ← getBoolD o "present"
  let path ← match jLookup o "path" with
    | none => pure (none : Option PyPath)
    | some .null => pure none
    | some (.str s) => pure (if s = "" then none else some (pyPathOfString s))
    | some _ => .error (.typeError "path")
  let metadata ← getMetadataD o
  .ok { name := name, present := present, path := path, metadata := metadata }

/-- `_collection_from_dict` of `utils.py`: required `name` and `path`;
`expected` and `extras` default to empty lists. -/
def collection_from_dict (data : JVal) : Except DeserializeError CollectionStatus := do
  let o ← asObj data
  let name ← asStr (← jRequire o "name")
  let path ← asStr (← jRequire o "path")
  let expected ← decodeList expected_from_dict (← getArrD o "expected")
  let extras ← decodeList asStr (← getArrD o "extras")
  .ok { name := name, path := pyPathOfString path, expected := expected, extras := extras }

/-- The pin loop body of `hierarchy_from_dict`. -/
def pin_from_dict (data : JVal) : Except DeserializeError PinStatus := do
  let o ← asObj data
  let name ← asStr (← jRequire o "name")
  let path ← asStr (← jRequire o "path")
  let missing ← getBoolD o "missing_collections"
  let collections ← decodeList collection_from_dict (← getArrD o "collections")
  .ok { name := name, path := pyPathOfString path
        collections := collections, missing_collections := missing }

/-- The puck loop body of `hierarchy_from_dict`. -/
def puck_from_dict (data : JVal) : Except DeserializeError PuckStatus := do
  let o ← asObj data
  let name ← asStr (← jRequire o "name")
  let path ← asStr (← jRequire o "path")
  let pins ← decodeList pin_from_dict (← getArrD o "pins")
  .ok { name := name, path := pyPathOfString path, pins := pins }

/-- The site loop body of `hierarchy_from_dict`. -/
def site_from_dict (data : JVal) : Except DeserializeError SiteStatus := do
  let o ← asObj data
  let name ← asStr (← jRequire o "name")
  let path ← asStr (← jRequire o "path")
  let pucks ← decodeList puck_from_dict (← getArrD o "pucks")
  .ok { name := name, path := pyPathOfString path, pucks := pucks }

/-- `hierarchy_from_dict` of `utils.py`: required `trip` mapping with
required `name` and `path`; the `sites` list and the
`all_expected_present` flag default to empty and false. -/
def hierarchy_from_dict (payload : JVal) : Except DeserializeError HierarchyResult := do
  let po ← asObj payload
  let tripData ← jRequire po "trip"
  let to_ ← asObj tripData
  let name ← asStr (← jRequire to_ "name")
  let path ← asStr (← jRequire to_ "path")
  let sites ← decodeList site_from_dict (← getArrD to_ "sites")
  let flag ← getBoolD po "all_expected_present"
  .ok { trip := { name := name, path := pyPathOfString path, sites := sites }
        all_expected_present := flag }

/-! ### Well-formedness

A Python `Path` value is canonical by construction: none of its parts is
empty, none is `.` (both are dropped by the constructor) and none contains
a slash (the constructor splits on it).  `PyPath` as a bare Lean structure
also admits non-canonical values no `pathlib.Path` can take; the following
decidable predicates carve out the canonical ones, and the serialization
round-trip is stated on them. -/

/-- Canonicity of one path component. -/
def wfPart (s : String) : Bool := s != "" && s != "." && !s.toList.contains '/'

/-- Canonicity of a path value. -/
def PyPath.wf (p : PyPath) : Bool := p.parts.all wfPart

/-- Canonicity of the optional path of an `ExpectedDirectoryStatus`. -/
def ExpectedDirectoryStatus.wf (e : ExpectedDirectoryStatus) : Bool :=
  match e.path with
  | some p => p.wf
  | none => true

/-- Canonicity of all paths of a `CollectionStatus`. -/
def CollectionStatus.wf (c : CollectionStatus) : Bool :=
  c.path.wf && c.expected.all (fun e => e.wf)

/-- Canonicity of all paths of a `PinStatus`. -/
def PinStatus.wf (p : PinStatus) : Bool :=
  p.path.wf && p.collections.all (fun c => c.wf)

/-- Canonicity of all paths of a `PuckStatus`. -/
def PuckStatus.wf (p : PuckStatus) : Bool :=
  p.path.wf && p.pins.all (fun x => x.wf)

/-- Canonicity of all paths of a `SiteStatus`. -/
def SiteStatus.wf (s : SiteStatus) : Bool :=
  s.path.wf && s.pucks.all (fun p => p.wf)

/-- Canonicity of all paths of a `TripHierarchy`. -/
def TripHierarchy.wf (t : TripHierarchy) : Bool :=
  t.path.wf && t.sites.all (fun s => s.wf)

/-- Canonicity of all paths of a `HierarchyResult`. -/
def HierarchyResult.wf (r : HierarchyResult) : Bool := r.trip.wf

/-- A small concrete hierarchy value used to instantiate theorems with
hypotheses at a concrete input. -/
def sampleResult : HierarchyResult :=
  { trip :=
      { name := "trip"
        path := ⟨true, ["data", "trip"]⟩
        sites := [
          { name := "site1", path := ⟨true, ["data", "trip", "site1"]⟩
            pucks := [
              { name := "puck1", path := ⟨true, ["data", "trip", "site1", "puck1"]⟩
                pins := [
                  { name := "pin1"
                    path := ⟨true, ["data", "trip", "site1", "puck1", "pin1"]⟩
                    collections := [
                      { name := "A"
                        path := ⟨true, ["data", "trip", "site1", "puck1", "pin1", "A"]⟩
                        expected := [
                          { name := "camera", present := true
                            path := some
                              ⟨true, ["data", "trip", "site1", "puck1", "pin1", "A", "camera"]⟩
                            metadata := [("image_files", .list ["/a/x.png"]),
                                         ("csv_files", .list [])] },
                          { name := "diff-center", present := false, path := none,
                            metadata := [] }]
                        extras := ["zzz"] }]
                    missing_collections := false }] }] }] }
    all_expected_present := false }

/-- A filesystem without the queried root. -/
def fsMissingRoot : FSNode := .dir []

/-- A filesystem whose queried root is a plain file. -/
def fsFileRoot : FSNode := .dir [("f", .file "")]

/-- A filesystem whose queried root is an existing directory. -/
def fsDirRoot : FSNode := .dir [("d", .dir [])]

/-- A filesystem whose single pin has no lettered collection. -/
def fsMissingPin : FSNode :=
  .dir [("r", .dir [("site1", .dir [("puck1", .dir [("pin1", .dir [])])])])]

/-- The hierarchy `build_hierarchy` produces for `fsMissingPin`. -/
def sampleMissingResult : HierarchyResult :=
  { trip :=
      { name := "r", path := ⟨true, ["r"]⟩
        sites := [
          { name := "site1", path := ⟨true, ["r", "site1"]⟩
            pucks := [
              { name := "puck1", path := ⟨true, ["r", "site1", "puck1"]⟩
                pins := [
                  { name := "pin1", path := ⟨true, ["r", "site1", "puck1", "pin1"]⟩
                    collections := [], missing_collections := true }] }] }] }
    all_expected_present := false }

/-- A filesystem with one collection directory holding one unexpected
subdirectory. -/
def fsWithCollection : FSNode :=
  .dir [("r", .dir [("s1", .dir [("p1", .dir [("pin1",
    .dir [("A", .dir [("zzz", .dir [])])])])])])]

/-- The collection status `build_hierarchy` produces for the `A` directory
of `fsWithCollection`. -/
def sampleCollection : CollectionStatus :=
  { name := "A", path := ⟨true, ["r", "s1", "p1", "pin1", "A"]⟩
    expected := [
      { name := "camera", present := false, path := none, metadata := [] },
      { name := "diff-center", present := false, path := none, metadata := [] },
      { name := "images", present := false, path := none, metadata := [] },
      { name := "processing", present := false, path := none, metadata := [] }]
    extras := ["zzz"] }

/-- The hierarchy `build_hierarchy` produces for `fsWithCollection`. -/
def sampleCollectionResult : HierarchyResult :=
  { trip :=
      { name := "r", path := ⟨true, ["r"]⟩
        sites := [
          { name := "s1", path := ⟨true, ["r", "s1"]⟩
            pucks := [
              { name := "p1", path := ⟨true, ["r", "s1", "p1"]⟩
                pins := [
                  { name := "pin1", path := ⟨true, ["r", "s1", "p1", "pin1"]⟩
                    collections := [sampleCollection]
                    missing_collections := false }] }] }] }
    all_expected_present := false }

/-- A processing directory containing a spots-per-image file but no
summary document. -/
def fsProcNoHtml : FSNode := .dir [("p", .dir [("SPOT.XDSxSpotsPerImagey.png", .file "")])]

/-- A processing directory whose summary document references no image,
next to a spots-per-image file reachable by the glob fallback. -/
def fsProcEmptyHtml : FSNode := .dir [("p", .dir [
  ("00_summary.html", .file "nothing here"),
  ("SPOT.XDSxSpotsPerImagey.png", .file "")])]

section Lemmas

/-- A string differs from the empty string iff its character list is
nonempty. -/
theorem toList_ne_nil_of_ne_empty {s : String} (h : s ≠ "") : s.toList ≠ [] := by
  cases s with
  | mk data =>
    intro hd
    apply h
    simp [String.toList] at hd
    simp [hd]

/-- A string other than `.` has a character list other than the dot. -/
theorem toList_ne_dot_of_ne_dot {s : String} (h : s ≠ ".") : s.toList ≠ ['.'] := by
  cases s with
  | mk data =>
    intro hd
    apply h
    simp [String.toList] at hd
    simp [hd]

/-- Rebuilding a string from its character list is the identity. -/
theorem mk_toList (s : String) : String.mk s.toList = s := by cases s; rfl

/-- Splitting a character list beginning with a slash peels off one empty
group. -/
theorem splitSlash_cons_slash (cs : List Char) :
    splitSlash ('/' :: cs) = [] :: splitSlash cs := by
  simp [splitSlash, List.splitOn, List.splitOnP_cons]

/-- On canonical parts, splitting undoes joining. -/
theorem splitSlash_intercalate (parts : List String)
    (hw : ∀ s ∈ parts, wfPart s = true) (hne : parts ≠ []) :
    splitSlash (List.intercalate ['/'] (parts.map String.toList)) = parts.map String.toList := by
  unfold splitSlash
  apply List.splitOn_intercalate
  · intro l hl
    simp only [List.mem_map] at hl
    obtain ⟨s, hs, rfl⟩ := hl
    have := hw s hs
    simp only [wfPart, Bool.and_eq_true, Bool.not_eq_true'] at this
    intro hmem
    have hc := this.2
    simp only [String.toList] at hmem
    simp [hmem] at hc
  · simpa using hne

/-- Joining one component is the identity. -/
theorem intercalate_singleton (x : List Char) : List.intercalate ['/'] [x] = x := by
  simp [List.intercalate, List.intersperse]

/-- Joining at least two components starts with the first one followed by a
slash. -/
theorem intercalate_cons_cons (x y : List Char) (xs : List (List Char)) :
    List.intercalate ['/'] (x :: y :: xs) = x ++ '/' :: List.intercalate ['/'] (y :: xs) := by
  simp [List.intercalate, List.intersperse]

/-- The filter of `pyPathOfString` keeps every canonical component. -/
theorem filter_keeps_wf (parts : List String) (hw : ∀ s ∈ parts, wfPart s = true) :
    ((parts.map String.toList).filter (fun c => c != [] && c != ['.'])).map
        (fun l => String.mk l) = parts := by
  rw [List.filter_eq_self.mpr]
  · simp only [List.map_map]
    exact List.map_congr_left (fun s _ => mk_toList s) |>.trans (List.map_id parts)
  · intro c hc
    simp only [List.mem_map] at hc
    obtain ⟨s, hs, rfl⟩ := hc
    have h := hw s hs
    simp only [wfPart, Bool.and_eq_true, bne_iff_ne, ne_eq] at h
    have h1 := toList_ne_nil_of_ne_empty h.1.1
    have h2 := toList_ne_dot_of_ne_dot h.1.2
    simp only [bne_iff_ne, ne_eq, Bool.and_eq_true]
    exact ⟨by simpa using h1, by simpa using h2⟩

/-- The `Path()` constructor undoes `str()` on canonical path values: the
model counterpart of `Path(str(p)) == p`. -/
theorem pyPathOfString_toStr (p : PyPath) (h : p.wf = true) :
    pyPathOfString p.toStr = p := by
  obtain ⟨abs, parts⟩ := p
  have hw : ∀ s ∈ parts, wfPart s = true := by
    simpa [PyPath.wf, List.all_eq_true] using h
  cases abs with
  | true =>
    cases parts with
    | nil => decide
    | cons p1 rest =>
      have htl : (PyPath.toStr ⟨true, p1 :: rest⟩).toList
          = '/' :: List.intercalate ['/'] ((p1 :: rest).map String.toList) := rfl
      unfold pyPathOfString
      rw [htl, splitSlash_cons_slash, splitSlash_intercalate _ hw (by simp)]
      rw [List.filter_cons_of_neg (by decide)]
      rw [filter_keeps_wf _ hw]
      simp
  | false =>
    cases parts with
    | nil => decide
    | cons p1 rest =>
      have hw1 := hw p1 (by simp)
      simp only [wfPart, Bool.and_eq_true, bne_iff_ne, ne_eq] at hw1
      have hp1 : p1.toList ≠ [] := toList_ne_nil_of_ne_empty hw1.1.1
      have hslash : '/' ∉ p1.toList := by
        intro hmem
        have h2 := hw1.2
        simp only [String.toList] at hmem
        simp [hmem] at h2
      have htl : (PyPath.toStr ⟨false, p1 :: rest⟩).toList
          = List.intercalate ['/'] ((p1 :: rest).map String.toList) := rfl
      have hhead : (List.intercalate ['/'] ((p1 :: rest).map String.toList)).head?
          = p1.toList.head? := by
        cases rest with
        | nil => simp [intercalate_singleton]
        | cons r2 rs =>
          simp only [List.map_cons, intercalate_cons_cons]
          cases hb : p1.toList with
          | nil => exact absurd hb hp1
          | cons c cs => simp
      have hheadne : ((List.intercalate ['/'] ((p1 :: rest).map String.toList)).head?
          == some '/') = false := by
        rw [hhead]
        cases hb : p1.toList with
        | nil => exact absurd hb hp1
        | cons c cs =>
          have hcne : c ≠ '/' := by
            intro hc
            exact hslash (hc ▸ (hb ▸ List.mem_cons_self c cs))
          simpa using hcne
      unfold pyPathOfString
      rw [htl, hheadne, splitSlash_intercalate _ hw (by simp)]
      rw [filter_keeps_wf _ hw]

/-- Joining a nonempty first component determines the head of the joined
path characters. -/
theorem intercalate_head (p1 : String) (rest : List String) (hp1 : p1.toList ≠ []) :
    (List.intercalate ['/'] ((p1 :: rest).map String.toList)).head? = p1.toList.head? := by
  cases rest with
  | nil => simp [intercalate_singleton]
  | cons r2 rs =>
    simp only [List.map_cons, intercalate_cons_cons]
    cases hb : p1.toList with
    | nil => exact absurd hb hp1
    | cons c cs => simp

/-- The string form of a canonical path is never the empty string. -/
theorem toStr_ne_empty (p : PyPath) (h : p.wf = true) : p.toStr ≠ "" := by
  obtain ⟨abs, parts⟩ := p
  have hw : ∀ s ∈ parts, wfPart s = true := by
    simpa [PyPath.wf, List.all_eq_true] using h
  cases abs with
  | true =>
    intro heq
    have := congrArg String.toList heq
    simp only [PyPath.toStr, if_pos] at this
    exact List.noConfusion (show '/' :: _ = ([] : List Char) from this)
  | false =>
    cases parts with
    | nil => decide
    | cons p1 rest =>
      intro heq
      have hw1 := hw p1 (by simp)
      simp only [wfPart, Bool.and_eq_true, bne_iff_ne, ne_eq] at hw1
      have hp1 : p1.toList ≠ [] := toList_ne_nil_of_ne_empty hw1.1.1
      have hl := congrArg String.toList heq
      have htl : (PyPath.toStr ⟨false, p1 :: rest⟩).toList
          = List.intercalate ['/'] ((p1 :: rest).map String.toList) := rfl
      rw [htl] at hl
      have hh := intercalate_head p1 rest hp1
      rw [hl] at hh
      cases hb : p1.toList with
      | nil => exact hp1 hb
      | cons c cs => rw [hb] at hh; exact Option.noConfusion hh

/-- Binding a successful `Except` computation just applies the
continuation. -/
theorem ok_bind {α β : Type} (a : α) (f : α → Except DeserializeError β) :
    (Except.ok a : Except DeserializeError α) >>= f = f a := rfl

/-- Decoding a serialized list element-by-element succeeds when each
element round-trips. -/
theorem decodeList_map {α : Type} (f : JVal → Except DeserializeError α) (g : α → JVal)
    (l : List α) (h : ∀ x ∈ l, f (g x) = .ok x) : decodeList f (l.map g) = .ok l := by
  induction l with
  | nil => rfl
  | cons x xs ih =>
    simp only [List.map_cons, decodeList]
    rw [h x (by simp), ih (fun y hy => h y (by simp [hy]))]
    rfl

/-- A metadata value survives serialization. -/
theorem decodeMetaVal_metaValToJ (v : MetaVal) : decodeMetaVal (metaValToJ v) = .ok v := by
  cases v with
  | str s => rfl
  | list l =>
    simp only [metaValToJ, decodeMetaVal]
    rw [decodeList_map asStr .str l (fun x _ => rfl)]
    rfl

/-- A metadata mapping survives serialization. -/
theorem getMetadataD_of_lookup (o : List (String × JVal)) (m : Metadata)
    (h : jLookup o "metadata" = some (metadataToJ m)) : getMetadataD o = .ok m := by
  unfold getMetadataD
  rw [h]
  simp only [metadataToJ]
  rw [show (m.map (fun kv => (kv.1, metaValToJ kv.2))).map (fun kv => kv.2)
        = (m.map (fun kv => kv.2)).map metaValToJ by simp [List.map_map]]
  rw [decodeList_map decodeMetaVal metaValToJ _ (fun x _ => decodeMetaVal_metaValToJ x)]
  simp [List.map_map, Function.comp_def, Except.map, List.zip_map']

/-- An `ExpectedDirectoryStatus` with canonical paths survives
serialization. -/
theorem expected_roundtrip (e : ExpectedDirectoryStatus) (h : e.wf = true) :
    expected_from_dict (expectedToJ e) = .ok e := by
  obtain ⟨n, b, path, m⟩ := e
  have hm : getMetadataD [("name", JVal.str n), ("present", .bool b),
      ("path", match path with | some p => JVal.str p.toStr | none => .null),
      ("metadata", metadataToJ m)] = .ok m := getMetadataD_of_lookup _ m rfl
  cases path with
  | none =>
    simp [expected_from_dict, expectedToJ, asObj, jRequire, jLookup, getBoolD, asStr, asBool,
      ok_bind, hm]
  | some p =>
    have hwf : p.wf = true := by simpa [ExpectedDirectoryStatus.wf] using h
    have hne : p.toStr ≠ "" := toStr_ne_empty p hwf
    simp [expected_from_dict, expectedToJ, asObj, jRequire, jLookup, getBoolD, asStr, asBool,
      ok_bind, hm, hne, pyPathOfString_toStr p hwf]

/-- A `CollectionStatus` with canonical paths survives serialization. -/
theorem collection_roundtrip (c : CollectionStatus) (h : c.wf = true) :
    collection_from_dict (collectionToJ c) = .ok c := by
  obtain ⟨n, path, expected, extras⟩ := c
  simp only [CollectionStatus.wf, Bool.and_eq_true, List.all_eq_true] at h
  simp [collection_from_dict, collectionToJ, asObj, jRequire, jLookup, asStr, getArrD, ok_bind,
    decodeList_map expected_from_dict expectedToJ expected
      (fun e he => expected_roundtrip e (h.2 e he)),
    decodeList_map asStr .str extras (fun x _ => rfl),
    pyPathOfString_toStr _ h.1]

/-- A `PinStatus` with canonical paths survives serialization. -/
theorem pin_roundtrip (p : PinStatus) (h : p.wf = true) :
    pin_from_dict (pinToJ p) = .ok p := by
  obtain ⟨n, path, collections, missing⟩ := p
  simp only [PinStatus.wf, Bool.and_eq_true, List.all_eq_true] at h
  simp [pin_from_dict, pinToJ, asObj, jRequire, jLookup, asStr, getArrD, getBoolD, asBool, ok_bind,
    decodeList_map collection_from_dict collectionToJ collections
      (fun c hc => collection_roundtrip c (h.2 c hc)),
    pyPathOfString_toStr _ h.1]

/-- A `PuckStatus` with canonical paths survives serialization. -/
theorem puck_roundtrip (p : PuckStatus) (h : p.wf = true) :
    puck_from_dict (puckToJ p) = .ok p := by
  obtain ⟨n, path, pins⟩ := p
  simp only [PuckStatus.wf, Bool.and_eq_true, List.all_eq_true] at h
  simp [puck_from_dict, puckToJ, asObj, jRequire, jLookup, asStr, getArrD, ok_bind,
    decodeList_map pin_from_dict pinToJ pins (fun x hx => pin_roundtrip x (h.2 x hx)),
    pyPathOfString_toStr _ h.1]

/-- A `SiteStatus` with canonical paths survives serialization. -/
theorem site_roundtrip (s : SiteStatus) (h : s.wf = true) :
    site_from_dict (siteToJ s) = .ok s := by
  obtain ⟨n, path, pucks⟩ := s
  simp only [SiteStatus.wf, Bool.and_eq_true, List.all_eq_true] at h
  simp [site_from_dict, siteToJ, asObj, jRequire, jLookup, asStr, getArrD, ok_bind,
    decodeList_map puck_from_dict puckToJ pucks (fun x hx => puck_roundtrip x (h.2 x hx)),
    pyPathOfString_toStr _ h.1]

/-- C3: for every `HierarchyResult` x (with the canonical paths every
Python `Path` value has by construction), `hierarchy_from_dict`
(`hierarchy_to_dict` x) reproduces every stored field of x — name, path,
present, missing_collections and all_expected_present values, metadata and
extras contents, and list lengths and order at every level — i.e. it
returns exactly x; derived properties are functions and are never
persisted. -/
theorem round_trip_reproduces_result (x : HierarchyResult) (h : x.wf = true) :
    hierarchy_from_dict (hierarchy_to_dict x) = .ok x := by
  obtain ⟨⟨n, path, sites⟩, flag⟩ := x
  simp only [HierarchyResult.wf, TripHierarchy.wf, Bool.and_eq_true, List.all_eq_true] at h
  simp [hierarchy_from_dict, hierarchy_to_dict, tripToJ, asObj, jRequire, jLookup, asStr,
    getArrD, getBoolD, asBool, ok_bind,
    decodeList_map site_from_dict siteToJ sites (fun x hx => site_roundtrip x (h.2 x hx)),
    pyPathOfString_toStr _ h.1]

/-- Witness for C3 at a concrete hierarchy value. -/
theorem round_trip_reproduces_result_witness :
    sampleResult.wf = true ∧
      hierarchy_from_dict (hierarchy_to_dict sampleResult) = .ok sampleResult :=
  ⟨by decide, round_trip_reproduces_result sampleResult (by decide)⟩

/-- Binding a failed `Except` computation short-circuits. -/
theorem err_bind {α β : Type} (e : DeserializeError) (f : α → Except DeserializeError β) :
    (Except.error e : Except DeserializeError α) >>= f = .error e := rfl

/-- C4: `build_hierarchy` fails with a not-found error when the resolved
root does not exist, with a not-a-directory error when it exists but is a
file, and in both cases produces no (partial) result; on every root that
is an existing directory no such error is raised. -/
theorem build_hierarchy_root_errors (fs : FSNode) (root : List String)
    (e : Option (List String)) (hl nsl : Bool) :
    (lookupFS fs root = none →
      build_hierarchy fs root e hl nsl = .error (.fileNotFound (absStr root))) ∧
    (∀ content, lookupFS fs root = some (.file content) →
      build_hierarchy fs root e hl nsl = .error (.notADirectory (absStr root))) ∧
    (∀ children, lookupFS fs root = some (.dir children) →
      (build_result fs root e hl nsl).isSome = true) := by
  refine ⟨fun h => ?_, fun c h => ?_, fun cs h => ?_⟩
  · simp [build_hierarchy, h]
  · simp [build_hierarchy, h]
  · cases nsl <;> simp [build_result, build_hierarchy, h, Except.toOption]

/-- Witness for C4 at three concrete roots. -/
theorem build_hierarchy_root_errors_witness :
    build_hierarchy fsMissingRoot ["nope"] none true false
        = .error (.fileNotFound "/nope") ∧
    build_hierarchy fsFileRoot ["f"] none true false = .error (.notADirectory "/f") ∧
    (build_result fsDirRoot ["d"] none true false).isSome = true :=
  ⟨(build_hierarchy_root_errors fsMissingRoot ["nope"] none true false).1 rfl,
   (build_hierarchy_root_errors fsFileRoot ["f"] none true false).2.1 "" rfl,
   (build_hierarchy_root_errors fsDirRoot ["d"] none true false).2.2 [] rfl⟩

/-- C7: deserialization raises a keyed error when a required key (the trip
mapping, or a collection path) is missing, and defaults optional fields
safely: absent list fields become empty lists and absent boolean flags
become false. -/
theorem deserialization_errors_and_defaults (o oc : List (String × JVal)) (n : String) :
    (jLookup o "trip" = none → hierarchy_from_dict (.obj o) = .error (.keyError "trip")) ∧
    (jLookup oc "name" = some (.str n) → jLookup oc "path" = none →
      collection_from_dict (.obj oc) = .error (.keyError "path")) ∧
    (expected_from_dict (.obj [("name", .str n)]) =
      .ok { name := n, present := false, path := none, metadata := [] }) ∧
    (collection_from_dict (.obj [("name", .str n), ("path", .str "/c")]) =
      .ok { name := n, path := ⟨true, ["c"]⟩, expected := [], extras := [] }) ∧
    (pin_from_dict (.obj [("name", .str n), ("path", .str "/p")]) =
      .ok { name := n, path := ⟨true, ["p"]⟩, collections := [],
            missing_collections := false }) ∧
    (hierarchy_from_dict (.obj [("trip", .obj [("name", .str n), ("path", .str "/t")])]) =
      .ok { trip := { name := n, path := ⟨true, ["t"]⟩, sites := [] },
            all_expected_present := false }) := by
  refine ⟨fun h => ?_, fun hn hp => ?_, rfl, rfl, rfl, rfl⟩
  · simp [hierarchy_from_dict, asObj, jRequire, h, ok_bind, err_bind]
  · simp [collection_from_dict, asObj, jRequire, hn, hp, asStr, ok_bind, err_bind]

/-- Witness for C7 at concrete payloads. -/
theorem deserialization_errors_and_defaults_witness :
    hierarchy_from_dict (.obj []) = .error (.keyError "trip") ∧
    collection_from_dict (.obj [("name", .str "A")]) = .error (.keyError "path") ∧
    expected_from_dict (.obj [("name", .str "camera")]) =
      .ok { name := "camera", present := false, path := none, metadata := [] } :=
  ⟨(deserialization_errors_and_defaults [] [("name", .str "A")] "A").1 rfl,
   (deserialization_errors_and_defaults [] [("name", .str "A")] "A").2.1 rfl rfl,
   (deserialization_errors_and_defaults [] [("name", .str "A")] "camera").2.2.1⟩

/-- C9: the injected progress logger is observational only — for every
filesystem, root, expected-name list and grouping mode the
`HierarchyResult` computed by `build_hierarchy` is the same whether or not
a logger sink was supplied (and whatever it is). -/
theorem logger_noninterference (fs : FSNode) (root : List String)
    (e : Option (List String)) (nsl l1 l2 : Bool) :
    build_result fs root e l1 nsl = build_result fs root e l2 nsl := by
  cases h : lookupFS fs root with
  | none => simp [build_result, build_hierarchy, h]
  | some n => cases n <;> cases nsl <;> simp [build_result, build_hierarchy, h, Except.toOption]

/-- C10: the processing metadata extractor returns either the empty
mapping or a mapping with exactly the keys summary_source, summary_images
and summary_image, where summary_images is non-empty and summary_image is
its first element — in particular summary_source is present whenever any
image is returned, also when the images came from the glob fallback. -/
theorem processing_metadata_shape (fs : FSNode) (processing_dir : List String) :
    collect_processing_metadata fs processing_dir = [] ∨
    ∃ src imgs first rest, imgs = first :: rest ∧
      collect_processing_metadata fs processing_dir =
        [("summary_source", .str src),
         ("summary_images", .list (imgs.map absStr)),
         ("summary_image", .str (absStr first))] := by
  unfold collect_processing_metadata
  split
  · exact Or.inl rfl
  · split
    · exact Or.inl rfl
    · dsimp only
      split
      · exact Or.inl rfl
      · next first tail heq =>
        exact Or.inr ⟨absStr _, _, first, tail, heq, rfl⟩




/-- The collection-level validity contribution is exactly the absence of
missing expected directories. -/
theorem process_collection_ok (fs : FSNode) (e : List String) (p : List String) (n : String) :
    (process_collection fs e p n).2.1 = !(process_collection fs e p n).1.missing_expected := by
  simp [process_collection, CollectionStatus.missing_expected]

/-- The pin-level validity contribution holds iff the pin has collections
and none of them misses an expected directory. -/
theorem process_pin_ok (fs : FSNode) (e : List String) (p : List String) (n : String) :
    (process_pin fs e p n).2.1 = true ↔
      ((process_pin fs e p n).1.missing_collections = false ∧
        ∀ c ∈ (process_pin fs e p n).1.collections, c.missing_expected = false) := by
  unfold process_pin
  dsimp only
  split
  · simp
  · rw [List.all_eq_true]
    constructor
    · intro h
      refine ⟨rfl, ?_⟩
      intro c hc
      rw [List.mem_map] at hc
      obtain ⟨r, hr, rfl⟩ := hc
      have hrt := h r hr
      rw [List.mem_map] at hr
      obtain ⟨n2, hn2, rfl⟩ := hr
      have hok := process_collection_ok fs e (p ++ [n2]) n2
      rw [hok] at hrt
      simpa using hrt
    · rintro ⟨-, h⟩
      intro r hr
      rw [List.mem_map] at hr
      obtain ⟨n2, hn2, rfl⟩ := hr
      rw [process_collection_ok]
      have hmem : (process_collection fs e (p ++ [n2]) n2).1 ∈
          (((iter_dirs fs p).filter is_lettered_collection).map
            (fun n3 => process_collection fs e (p ++ [n3]) n3)).map (fun r => r.1) :=
        List.mem_map_of_mem _ (List.mem_map_of_mem _ hn2)
      have := h _ hmem
      simpa using this



/-- The puck-level validity contribution aggregates its pins. -/
theorem process_puck_ok (fs : FSNode) (e : List String) (p : List String) (n : String) :
    (process_puck fs e p n).2.1 = true ↔
      ∀ pin ∈ (process_puck fs e p n).1.pins,
        (pin.missing_collections = false ∧
          ∀ c ∈ pin.collections, c.missing_expected = false) := by
  unfold process_puck
  dsimp only
  rw [List.all_eq_true]
  constructor
  · intro h pin hpin
    rw [List.mem_map] at hpin
    obtain ⟨r, hr, rfl⟩ := hpin
    have hrt := h r hr
    rw [List.mem_map] at hr
    obtain ⟨n2, hn2, rfl⟩ := hr
    exact (process_pin_ok fs e (p ++ [n2]) n2).mp hrt
  · intro h r hr
    rw [List.mem_map] at hr
    obtain ⟨n2, hn2, rfl⟩ := hr
    rw [process_pin_ok]
    have hmem : (process_pin fs e (p ++ [n2]) n2).1 ∈
        ((iter_dirs fs p).map (fun n3 => process_pin fs e (p ++ [n3]) n3)).map
          (fun r => r.1) :=
      List.mem_map_of_mem _ (List.mem_map_of_mem _ hn2)
    exact h _ hmem

/-- The site-level validity contribution aggregates its pins. -/
theorem process_site_ok (fs : FSNode) (e : List String) (p : List String) (n : String) :
    (process_site fs e p n).2.1 = true ↔
      ∀ puck ∈ (process_site fs e p n).1.pucks, ∀ pin ∈ puck.pins,
        (pin.missing_collections = false ∧
          ∀ c ∈ pin.collections, c.missing_expected = false) := by
  unfold process_site
  dsimp only
  rw [List.all_eq_true]
  constructor
  · intro h puck hpuck
    rw [List.mem_map] at hpuck
    obtain ⟨r, hr, rfl⟩ := hpuck
    have hrt := h r hr
    rw [List.mem_map] at hr
    obtain ⟨n2, hn2, rfl⟩ := hr
    exact (process_puck_ok fs e (p ++ [n2]) n2).mp hrt
  · intro h r hr
    rw [List.mem_map] at hr
    obtain ⟨n2, hn2, rfl⟩ := hr
    rw [process_puck_ok]
    have hmem : (process_puck fs e (p ++ [n2]) n2).1 ∈
        ((iter_dirs fs p).map (fun n3 => process_puck fs e (p ++ [n3]) n3)).map
          (fun r => r.1) :=
      List.mem_map_of_mem _ (List.mem_map_of_mem _ hn2)
    exact h _ hmem

/-- The aggregate flag of a built hierarchy holds iff every pin of the
result has a collection and every collection has all expected
directories. -/
theorem build_flag_iff (fs : FSNode) (root : List String) (e : Option (List String))
    (hl nsl : Bool) (pr : HierarchyResult)
    (h : build_result fs root e hl nsl = some pr) :
    (pr.all_expected_present = true ↔
      ∀ pin ∈ pr.trip.iter_pins,
        (pin.missing_collections = false ∧
          ∀ c ∈ pin.collections, c.missing_expected = false)) := by
  unfold build_result build_hierarchy at h
  cases hfs : lookupFS fs root with
  | none => rw [hfs] at h; simp [Except.toOption] at h
  | some node =>
    rw [hfs] at h
    cases node with
    | file content => simp [Except.toOption] at h
    | dir children =>
      cases nsl with
      | true =>
        simp only [Except.toOption, Option.map_some, if_pos] at h
        obtain rfl := Option.some.inj h
        dsimp only [TripHierarchy.iter_pins]
        rw [List.all_eq_true]
        simp only [List.flatMap_cons, List.flatMap_nil, List.append_nil]
        constructor
        · intro h2 pin hpin
          rw [List.mem_flatMap] at hpin
          obtain ⟨puck, hpuck, hpin2⟩ := hpin
          rw [List.mem_map] at hpuck
          obtain ⟨r, hr, rfl⟩ := hpuck
          have hrt := h2 r hr
          rw [List.mem_map] at hr
          obtain ⟨n2, hn2, rfl⟩ := hr
          exact (process_puck_ok fs (expandExpected e) (root ++ [n2]) n2).mp hrt pin hpin2
        · intro h2 r hr
          rw [List.mem_map] at hr
          obtain ⟨n2, hn2, rfl⟩ := hr
          rw [process_puck_ok]
          intro pin hpin
          refine h2 pin ?_
          rw [List.mem_flatMap]
          refine ⟨(process_puck fs (expandExpected e) (root ++ [n2]) n2).1, ?_, hpin⟩
          exact List.mem_map_of_mem _ (List.mem_map_of_mem _ hn2)
      | false =>
        simp only [Except.toOption, Option.map_some, if_neg] at h
        obtain rfl := Option.some.inj h
        dsimp only [TripHierarchy.iter_pins]
        rw [List.all_eq_true]
        constructor
        · intro h2 pin hpin
          rw [List.mem_flatMap] at hpin
          obtain ⟨puck, hpuck, hpin2⟩ := hpin
          rw [List.mem_flatMap] at hpuck
          obtain ⟨site, hsite, hpuck2⟩ := hpuck
          rw [List.mem_map] at hsite
          obtain ⟨r, hr, rfl⟩ := hsite
          have hrt := h2 r hr
          rw [List.mem_map] at hr
          obtain ⟨n2, hn2, rfl⟩ := hr
          exact (process_site_ok fs (expandExpected e) (root ++ [n2]) n2).mp hrt puck hpuck2
            pin hpin2
        · intro h2 r hr
          rw [List.mem_map] at hr
          obtain ⟨n2, hn2, rfl⟩ := hr
          rw [process_site_ok]
          intro puck hpuck pin hpin
          refine h2 pin ?_
          rw [List.mem_flatMap]
          refine ⟨puck, ?_, hpin⟩
          rw [List.mem_flatMap]
          refine ⟨(process_site fs (expandExpected e) (root ++ [n2]) n2).1, ?_, hpuck⟩
          exact List.mem_map_of_mem _ (List.mem_map_of_mem _ hn2)




/-- C1: for every traversed trip tree, `all_expected_present` is false
iff at least one collection misses an expected directory or at least one
pin was marked as having zero lettered collections; in particular a trip
with no pins at all (zero sites or zero pucks) yields true. -/
theorem all_expected_present_iff (fs : FSNode) (root : List String)
    (e : Option (List String)) (hl nsl : Bool) (pr : HierarchyResult)
    (h : build_result fs root e hl nsl = some pr) :
    (pr.all_expected_present = false ↔
      ((∃ c ∈ pr.trip.iter_collections, c.missing_expected = true) ∨
       (∃ pin ∈ pr.trip.iter_pins, pin.missing_collections = true))) ∧
    (pr.trip.iter_pins = [] → pr.all_expected_present = true) := by
  have hiff := build_flag_iff fs root e hl nsl pr h
  constructor
  · constructor
    · intro hfalse
      by_contra hcon
      push_neg at hcon
      obtain ⟨hnc, hnp⟩ := hcon
      have hall : ∀ pin ∈ pr.trip.iter_pins,
          pin.missing_collections = false ∧
            ∀ c ∈ pin.collections, c.missing_expected = false := by
        intro pin hpin
        constructor
        · have := hnp pin hpin
          simpa using this
        · intro c hc
          have hcm : c ∈ pr.trip.iter_collections := by
            rw [TripHierarchy.iter_collections, List.mem_flatMap]
            exact ⟨pin, hpin, hc⟩
          have := hnc c hcm
          simpa using this
      have hT := hiff.mpr hall
      rw [hfalse] at hT
      exact Bool.noConfusion hT
    · intro hor
      cases hb : pr.all_expected_present with
      | false => rfl
      | true =>
        have hall := hiff.mp hb
        cases hor with
        | inl hc =>
          obtain ⟨c, hcm, hct⟩ := hc
          rw [TripHierarchy.iter_collections, List.mem_flatMap] at hcm
          obtain ⟨pin, hpin, hc2⟩ := hcm
          have := (hall pin hpin).2 c hc2
          rw [hct] at this
          exact Bool.noConfusion this
        | inr hp =>
          obtain ⟨pin, hpin, hpt⟩ := hp
          have := (hall pin hpin).1
          rw [hpt] at this
          exact Bool.noConfusion this
  · intro hemp
    refine hiff.mpr ?_
    rw [hemp]
    intro pin hpin
    exact absurd hpin (List.not_mem_nil pin)


/-- Witness for C1 at a concrete filesystem whose one pin has no lettered
collection. -/
theorem all_expected_present_iff_witness :
    ((sampleMissingResult.all_expected_present = false ↔
      ((∃ c ∈ sampleMissingResult.trip.iter_collections, c.missing_expected = true) ∨
       (∃ pin ∈ sampleMissingResult.trip.iter_pins, pin.missing_collections = true))) ∧
     (sampleMissingResult.trip.iter_pins = [] →
       sampleMissingResult.all_expected_present = true)) :=
  all_expected_present_iff fsMissingPin ["r"] none true false sampleMissingResult (by decide)




theorem lettered_collection_classifier (s : String) (fs : FSNode)
    (e : List String) (pin_dir : List String) (n : String) :
    (is_lettered_collection s = true ↔
      ∃ c : Char, s.toList = [c] ∧ c.isAlpha = true ∧ c.isUpper = true) ∧
    is_lettered_collection "a" = false ∧
    is_lettered_collection "A" = true ∧
    ((process_pin fs e pin_dir n).1.collections.map (fun c => c.name)
        = (iter_dirs fs pin_dir).filter is_lettered_collection) ∧
    ((process_pin fs e pin_dir n).1.missing_collections
        = ((iter_dirs fs pin_dir).filter is_lettered_collection).isEmpty) := by
  refine ⟨?_, by decide, by decide, ?_, ?_⟩
  · constructor
    · intro h
      simp only [is_lettered_collection, Bool.and_eq_true, beq_iff_eq] at h
      obtain ⟨⟨hlen, halpha⟩, hupper⟩ := h
      have hlen2 : s.toList.length = 1 := hlen
      obtain ⟨c, hc⟩ := List.length_eq_one.mp hlen2
      refine ⟨c, hc, ?_, ?_⟩
      · simp only [py_isalpha, hc, Bool.and_eq_true, List.all_cons, List.all_nil] at halpha
        simpa using halpha
      · simp only [py_isupper, hc, List.any_cons, List.any_nil, List.all_cons, List.all_nil,
          Bool.and_eq_true, Bool.or_eq_true] at hupper
        rcases hupper.2.1 with h1 | h2
        · simp only [py_isalpha, hc, Bool.and_eq_true, List.all_cons, List.all_nil] at halpha
          rw [Bool.not_eq_true'] at h1
          rw [halpha.2.1] at h1
          exact Bool.noConfusion h1
        · exact h2
    · rintro ⟨c, hc, ha, hu⟩
      have hd : s.data = [c] := hc
      simp [is_lettered_collection, py_isalpha, py_isupper, String.length, hd, ha, hu]
  · unfold process_pin
    dsimp only
    split
    · next hemp =>
      rw [List.isEmpty_iff] at hemp
      simp [hemp]
    · simp only [List.map_map]
      exact (List.map_congr_left fun x _ => rfl).trans (List.map_id _)
  · unfold process_pin
    dsimp only
    split
    · next hemp => simp [hemp]
    · next hemp => simp [Bool.not_eq_true] at hemp; simp [hemp]



/-- The collection constructor yields one expected entry per configured
name in order, and the sorted deduplicated present-minus-expected extras. -/
theorem process_collection_spec (fs : FSNode) (e : List String) (p : List String) (n : String) :
    ((process_collection fs e p n).1.expected.map (fun s => s.name) = e) ∧
    (process_collection fs e p n).1.extras.Sorted (· ≤ ·) ∧
    (process_collection fs e p n).1.extras.Nodup ∧
    (process_collection fs e p n).1.path = abspath p ∧
    (∀ s, s ∈ (process_collection fs e p n).1.extras ↔
      (s ∈ iter_dirs fs p ∧ s ∉ e)) := by
  refine ⟨?_, ?_, ?_, rfl, ?_⟩
  · simp only [process_collection, List.map_map]
    exact (List.map_congr_left fun x _ => rfl).trans (List.map_id _)
  · exact List.sorted_insertionSort _ _
  · have hperm := (List.perm_insertionSort (α := String) (· ≤ ·)
      (((iter_dirs fs p).dedup).filter (fun m => !e.contains m))).symm
    exact hperm.nodup (((iter_dirs fs p).nodup_dedup).filter _)
  · intro s
    simp only [process_collection]
    rw [List.mem_insertionSort]
    simp [List.mem_filter, List.mem_dedup]

/-- Every collection of a processed pin comes from the collection
constructor. -/
theorem mem_collections_pin (fs : FSNode) (e : List String) (p : List String) (n : String)
    (c : CollectionStatus) (hc : c ∈ (process_pin fs e p n).1.collections) :
    ∃ q m, c = (process_collection fs e q m).1 := by
  unfold process_pin at hc
  dsimp only at hc
  split at hc
  · simp at hc
  · rw [List.mem_map] at hc
    obtain ⟨r, hr, rfl⟩ := hc
    rw [List.mem_map] at hr
    obtain ⟨n2, hn2, rfl⟩ := hr
    exact ⟨p ++ [n2], n2, rfl⟩

/-- Every pin of a built hierarchy comes from the pin constructor. -/
theorem mem_pins_build (fs : FSNode) (root : List String) (e : Option (List String))
    (hl nsl : Bool) (pr : HierarchyResult)
    (h : build_result fs root e hl nsl = some pr) :
    ∀ pin ∈ pr.trip.iter_pins, ∃ q m, pin = (process_pin fs (expandExpected e) q m).1 := by
  unfold build_result build_hierarchy at h
  cases hfs : lookupFS fs root with
  | none => rw [hfs] at h; simp [Except.toOption] at h
  | some node =>
    rw [hfs] at h
    cases node with
    | file content => simp [Except.toOption] at h
    | dir children =>
      cases nsl with
      | true =>
        simp only [Except.toOption, Option.map_some, if_pos] at h
        obtain rfl := Option.some.inj h
        intro pin hpin
        dsimp only [TripHierarchy.iter_pins] at hpin
        simp only [List.flatMap_cons, List.flatMap_nil, List.append_nil] at hpin
        rw [List.mem_flatMap] at hpin
        obtain ⟨puck, hpuck, hpin2⟩ := hpin
        rw [List.mem_map] at hpuck
        obtain ⟨r, hr, rfl⟩ := hpuck
        rw [List.mem_map] at hr
        obtain ⟨n2, hn2, rfl⟩ := hr
        unfold process_puck at hpin2
        dsimp only at hpin2
        rw [List.mem_map] at hpin2
        obtain ⟨r2, hr2, rfl⟩ := hpin2
        rw [List.mem_map] at hr2
        obtain ⟨n3, hn3, rfl⟩ := hr2
        exact ⟨root ++ [n2] ++ [n3], n3, rfl⟩
      | false =>
        simp only [Except.toOption, Option.map_some, if_neg] at h
        obtain rfl := Option.some.inj h
        intro pin hpin
        dsimp only [TripHierarchy.iter_pins] at hpin
        rw [List.mem_flatMap] at hpin
        obtain ⟨puck, hpuck, hpin2⟩ := hpin
        rw [List.mem_flatMap] at hpuck
        obtain ⟨site, hsite, hpuck2⟩ := hpuck
        rw [List.mem_map] at hsite
        obtain ⟨r, hr, rfl⟩ := hsite
        rw [List.mem_map] at hr
        obtain ⟨n2, hn2, rfl⟩ := hr
        unfold process_site at hpuck2
        dsimp only at hpuck2
        rw [List.mem_map] at hpuck2
        obtain ⟨r2, hr2, rfl⟩ := hpuck2
        rw [List.mem_map] at hr2
        obtain ⟨n3, hn3, rfl⟩ := hr2
        unfold process_puck at hpin2
        dsimp only at hpin2
        rw [List.mem_map] at hpin2
        obtain ⟨r3, hr3, rfl⟩ := hpin2
        rw [List.mem_map] at hr3
        obtain ⟨n4, hn4, rfl⟩ := hr3
        exact ⟨root ++ [n2] ++ [n3] ++ [n4], n4, rfl⟩

/-- C8: every `CollectionStatus` produced by `build_hierarchy` has exactly
one `ExpectedDirectoryStatus` per configured expected name, in the
configured order, regardless of presence; and its extras are the sorted,
duplicate-free set of present child-directory names of its own directory
minus the expected-name set. -/
theorem collection_invariant (fs : FSNode) (root : List String) (e : Option (List String))
    (hl nsl : Bool) (pr : HierarchyResult)
    (h : build_result fs root e hl nsl = some pr) :
    ∀ c ∈ pr.trip.iter_collections,
      (c.expected.map (fun s => s.name) = expandExpected e) ∧
      c.extras.Sorted (· ≤ ·) ∧ c.extras.Nodup ∧
      ∃ p, c.path = abspath p ∧
        (∀ s, s ∈ c.extras ↔ (s ∈ iter_dirs fs p ∧ s ∉ expandExpected e)) := by
  intro c hc
  rw [TripHierarchy.iter_collections, List.mem_flatMap] at hc
  obtain ⟨pin, hpin, hc2⟩ := hc
  obtain ⟨q, m, rfl⟩ := mem_pins_build fs root e hl nsl pr h pin hpin
  obtain ⟨q2, m2, rfl⟩ := mem_collections_pin fs (expandExpected e) q m c hc2
  obtain ⟨h1, h2, h3, h4, h5⟩ := process_collection_spec fs (expandExpected e) q2 m2
  exact ⟨h1, h2, h3, q2, h4, h5⟩


/-- Witness for C8 at a concrete collection with one extra directory. -/
theorem collection_invariant_witness :
    (sampleCollection.expected.map (fun s => s.name) = expandExpected none) ∧
    sampleCollection.extras.Sorted (· ≤ ·) ∧ sampleCollection.extras.Nodup ∧
    ∃ p, sampleCollection.path = abspath p ∧
      (∀ s, s ∈ sampleCollection.extras ↔
        (s ∈ iter_dirs fsWithCollection p ∧ s ∉ expandExpected none)) :=
  collection_invariant fsWithCollection ["r"] none true false sampleCollectionResult
    (by decide) sampleCollection (by decide)

/-- C6 (amended): the camera extractor always returns exactly the two-key
mapping image_files/csv_files; each list is lexicographically sorted and
holds the absolute path string of exactly those files at any depth below
the camera directory whose lowercased suffix is an image (resp. csv)
extension; when the camera directory is absent both lists are empty (the
mapping itself is not empty). -/
theorem camera_metadata_spec (fs : FSNode) (camera_dir : List String) :
    ∃ imgs csvs,
      collect_camera_metadata fs camera_dir =
        [("image_files", .list imgs), ("csv_files", .list csvs)] ∧
      imgs.Sorted (· ≤ ·) ∧ csvs.Sorted (· ≤ ·) ∧
      (∀ s, s ∈ imgs ↔
        ∃ en ∈ (rglobEntries fs camera_dir "*").filter (fun x => !x.2.isDir),
          s = absStr en.1 ∧
            IMAGE_EXTENSIONS.contains (py_suffix (lastName en.1)).toLower = true) ∧
      (∀ s, s ∈ csvs ↔
        ∃ en ∈ (rglobEntries fs camera_dir "*").filter (fun x => !x.2.isDir),
          s = absStr en.1 ∧
            CSV_EXTENSIONS.contains (py_suffix (lastName en.1)).toLower = true) ∧
      (lookupFS fs camera_dir = none → imgs = [] ∧ csvs = []) := by
  refine ⟨_, _, rfl, List.sorted_insertionSort _ _, List.sorted_insertionSort _ _, ?_, ?_, ?_⟩
  · intro s
    rw [List.mem_insertionSort]
    constructor
    · intro hs
      rw [List.mem_map] at hs
      obtain ⟨en, hen, rfl⟩ := hs
      rw [List.mem_filter] at hen
      exact ⟨en, List.mem_filter.mpr ⟨(List.mem_filter.mp hen.1).1,
        (List.mem_filter.mp hen.1).2⟩, rfl, hen.2⟩
    · rintro ⟨en, hen, rfl, hext⟩
      rw [List.mem_map]
      exact ⟨en, List.mem_filter.mpr ⟨hen, hext⟩, rfl⟩
  · intro s
    rw [List.mem_insertionSort]
    constructor
    · intro hs
      rw [List.mem_map] at hs
      obtain ⟨en, hen, rfl⟩ := hs
      rw [List.mem_filter] at hen
      exact ⟨en, List.mem_filter.mpr ⟨(List.mem_filter.mp hen.1).1,
        (List.mem_filter.mp hen.1).2⟩, rfl, hen.2⟩
    · rintro ⟨en, hen, rfl, hext⟩
      rw [List.mem_map]
      exact ⟨en, List.mem_filter.mpr ⟨hen, hext⟩, rfl⟩
  · intro h
    simp [collect_camera_metadata, rglobEntries, h]

/-- C6 counterexample: for an absent camera directory the extractor does
not return the empty mapping claimed by the spec but the two-key mapping
with two empty lists. -/
theorem camera_absent_not_empty_mapping :
    collect_camera_metadata (FSNode.dir []) ["camera"]
        = [("image_files", .list []), ("csv_files", .list [])] ∧
    collect_camera_metadata (FSNode.dir []) ["camera"] ≠ ([] : Metadata) :=
  ⟨by decide, by decide⟩

/-- C2 counterexample: a processing directory holding a spots-per-image
file but no summary document yields empty metadata — the fallback is never
reached without a summary document — and when a summary document exists
but scrapes to nothing, the fallback result does carry summary_source. -/
theorem processing_fallback_claim_false :
    collect_processing_metadata fsProcNoHtml ["p"] = ([] : Metadata) ∧
    (("summary_source", MetaVal.str "/p/00_summary.html") ∈
      collect_processing_metadata fsProcEmptyHtml ["p"]) :=
  ⟨by decide, by decide⟩

/-- C2 (amended): when no summary document exists the extractor returns
empty metadata without attempting the glob fallback; when a summary
document exists and is readable but scraping finds no image, the fallback
result is returned together with summary_source set to the summary
document; and the fallback tries the spots-per-image glob first, not
running the fitness-batch pattern once an image was found. -/
theorem processing_fallback_behavior (fs : FSNode) (processing_dir sp : List String)
    (content : String) (f f0 : List String) (rest : List (List String)) :
    ((summaryCandidates fs processing_dir).find? (fun p => (lookupFS fs p).isSome) = none →
      collect_processing_metadata fs processing_dir = []) ∧
    ((summaryCandidates fs processing_dir).find? (fun p => (lookupFS fs p).isSome) = some sp →
      readFileAt fs sp = some content →
      scrapeImages fs processing_dir sp content = [] →
      fallbackImages fs processing_dir [] = f :: rest →
      collect_processing_metadata fs processing_dir =
        [("summary_source", .str (absStr sp)),
         ("summary_images", .list ((f :: rest).map absStr)),
         ("summary_image", .str (absStr f))]) ∧
    (fallbackFirstFile fs processing_dir "SPOT.XDS*SpotsPerImage*.png" = some f0 →
      fallbackImages fs processing_dir [] = [f0]) := by
  refine ⟨fun h1 => ?_, fun h1 h2 h3 h4 => ?_, fun h1 => ?_⟩
  · unfold collect_processing_metadata
    rw [h1]
  · unfold collect_processing_metadata
    rw [h1]
    dsimp only
    rw [h2]
    dsimp only
    rw [h3]
    simp only [List.isEmpty_nil, if_pos]
    rw [h4]
  · unfold fallbackImages
    simp [h1]

/-- Witness for the amended C2 at a concrete processing directory. -/
theorem processing_fallback_behavior_witness :
    collect_processing_metadata fsProcEmptyHtml ["p"] =
      [("summary_source", .str (absStr ["p", "00_summary.html"])),
       ("summary_images", .list ([["p", "SPOT.XDSxSpotsPerImagey.png"]].map absStr)),
       ("summary_image", .str (absStr ["p", "SPOT.XDSxSpotsPerImagey.png"]))] :=
  (processing_fallback_behavior fsProcEmptyHtml ["p"] ["p", "00_summary.html"]
      "nothing here" ["p", "SPOT.XDSxSpotsPerImagey.png"]
      ["p", "SPOT.XDSxSpotsPerImagey.png"] []).2.1
    (by decide) (by decide) (by decide) (by decide)

end Lemmas

end Imca
